import Mathlib

/-!
Verification of the simple-tunnel server and client (packages/server, packages/cli,
packages/protocol) against its natural-language specification.

The TypeScript sources are shallowly embedded below:
* JS strings are `List Char` where structural reasoning is needed (subdomains, hosts)
  and Lean `String` for header maps;
* JS `Record<string, string>` objects are association lists built by `recordAssign`,
  which mirrors `out[k] = v` (update-in-place for an existing key, append otherwise);
* the server's in-memory maps (`tunnels`, per-tunnel `streams`) are modelled as
  functions into `Option`, updated pointwise;
* `Math.random().toString(36)` is modelled by its result: the base-36 rendering of
  the random double, a list of characters of the shape `'0' :: '.' :: digits`
  (for random values whose rendering has a fractional part);
* effectful framework calls are modelled by the data they deliver to the public
  caller: raw `res.writeHead` / `res.write` / `res.end` and pre-hijack
  `reply.code(c).send(b)` become elements of an output trace, while a
  `reply.code(c).send(b)` issued after `reply.hijack()` delivers nothing —
  Fastify treats a hijacked reply as already sent, so the call is a swallowed
  no-op.
-/

/-- Subdomains, host names and base domains are JS strings, modelled as `List Char`. -/
abbrev Subdomain := List Char

/-- Pointwise update of an `Option`-valued map, used to model `Map.set` / `Map.delete`
and JS variable binding in the embedded state machines. -/
def upd {α β : Type} [DecidableEq α] (f : α → Option β) (a : α) (b : Option β) : α → Option β :=
  fun x => if x = a then b else f x

/-- Pointwise update of a Bool-valued map (used for connection liveness). -/
def updB {α : Type} [DecidableEq α] (f : α → Bool) (a : α) (b : Bool) : α → Bool :=
  fun x => if x = a then b else f x

/-- Character class of the subdomain regex `[a-z0-9-]` from
`packages/protocol/src/index.ts` (`SUBDOMAIN_REGEX`). -/
def isSubdomainChar (c : Char) : Bool :=
  ('a' ≤ c && c ≤ 'z') || ('0' ≤ c && c ≤ '9') || c = '-'

/-- `isValidSubdomain` from `packages/protocol/src/index.ts`:
`SUBDOMAIN_REGEX.test(s)` with `SUBDOMAIN_REGEX = /^[a-z0-9-]{3,63}$/`. -/
def isValidSubdomain (s : Subdomain) : Bool :=
  3 ≤ s.length && s.length ≤ 63 && s.all isSubdomainChar

/-- JS `String.prototype.slice(a, b)` for `0 ≤ a ≤ b`: the characters at
indices `[a, b)`. -/
def jsSlice (s : List Char) (a b : Nat) : List Char :=
  (s.drop a).take (b - a)

/-- `generateRandomSubdomain` from the server: `Math.random().toString(36).slice(2, 9)`.
The argument `rand` is the base-36 rendering of the random double (for example
`(0.5).toString(36)` is the string `0.i`, and a typical random double renders as
`0.` followed by ten or more base-36 digits). -/
def generateRandomSubdomain (rand : List Char) : Subdomain :=
  jsSlice rand 2 9

/-- Digits that can appear in the fractional part of `Number.prototype.toString(36)`. -/
def isBase36Digit (c : Char) : Bool :=
  ('0' ≤ c && c ≤ '9') || ('a' ≤ c && c ≤ 'z')

/-- Subdomain selection in the server's `REGISTER_TUNNEL` case:
`requested` is `msg.subdomain` when present and `isValidSubdomain`, else dropped
(a requested empty string is invalid, so JS truthiness of `msg.subdomain` adds
nothing); the chosen subdomain is the requested one when it is free, otherwise
`generateRandomSubdomain()`. -/
def registerChooseSub (requested : Option Subdomain) (taken : Subdomain → Bool)
    (rand : List Char) : Subdomain :=
  match requested with
  | some r => if isValidSubdomain r && !(taken r) then r else generateRandomSubdomain rand
  | none => generateRandomSubdomain rand

/-- JS `String.prototype.toLowerCase`, restricted to the ASCII mapping
(header names and host names in the claims are ASCII). -/
def jsToLower (s : List Char) : List Char :=
  s.map Char.toLower

/-- Port stripping in the public handler:
`rawHost.includes(":") ? rawHost.split(":")[0] : rawHost`, i.e. the prefix of the
host before the first colon. -/
def stripPort (s : List Char) : List Char :=
  s.takeWhile (fun c => c != ':')

/-- JS `String.prototype.endsWith`. -/
def jsEndsWith (s t : List Char) : Bool :=
  decide (t <:+ s)

/-- JS `s.slice(0, -n)`: drop the last `n` characters (`-0` is `0`, giving the
empty string). -/
def jsSliceDropEnd (s : List Char) (n : Nat) : List Char :=
  if n = 0 then [] else s.take (s.length - n)

/-- `extractSubdomain` from the server: require `host` to end with `base`, peel
`base` off, require the remainder to end with `.`, peel the dot off, and validate
the remaining label. -/
def extractSubdomain (host base : List Char) : Option Subdomain :=
  if !(jsEndsWith host base) then none
  else
    let suffix := jsSliceDropEnd host base.length
    if !(jsEndsWith suffix ['.']) then none
    else
      let sub := jsSliceDropEnd suffix 1
      if !(isValidSubdomain sub) then none else some sub

/-- Outcome of the routing prelude of the public handler `app.all("/*")`. -/
inductive RouteResult
  | notFound
  | tunnelNotConnected
  | proxied (sub : Subdomain)
deriving DecidableEq

/-- Body of the public 404: `reply.code(404).send({ error: "Not Found" })`. -/
def notFoundBody : String := "\x7b\"error\":\"Not Found\"\x7d"

/-- Body of the public 502: `reply.code(502).send({ error: "Tunnel not connected" })`. -/
def tunnelNotConnectedBody : String := "\x7b\"error\":\"Tunnel not connected\"\x7d"

/-- HTTP status code attached to each routing outcome by the public handler. -/
def routeStatus : RouteResult → Option Nat
  | .notFound => some 404
  | .tunnelNotConnected => some 502
  | .proxied _ => none

/-- Response body attached to each routing outcome by the public handler. -/
def routeBody : RouteResult → Option String
  | .notFound => some notFoundBody
  | .tunnelNotConnected => some tunnelNotConnectedBody
  | .proxied _ => none

/-- Routing prelude of the public handler `app.all("/*")`: lowercase the `Host`
header (empty when absent), strip any `:port`, extract the subdomain, and look the
tunnel up in the registry (`registered` is `fun s => (tunnels.get s).isSome`). -/
def routePublic (hostHeader : Option (List Char)) (base : List Char)
    (registered : Subdomain → Bool) : RouteResult :=
  let rawHost := jsToLower (hostHeader.getD [])
  let host := stripPort rawHost
  match extractSubdomain host base with
  | none => .notFound
  | some sub => if registered sub then .proxied sub else .tunnelNotConnected

/-- JS `Record<string, string>` assignment `out[k] = v` on an association list:
update the value in place when the key exists, append otherwise. -/
def recordAssign (m : List (String × String)) (kv : String × String) :
    List (String × String) :=
  if m.any (fun p => p.1 == kv.1) then
    m.map (fun p => if p.1 == kv.1 then (p.1, kv.2) else p)
  else m ++ [kv]

/-- Generic form of the JS loops below: fold a list into a fresh record, assigning
`g a` when it projects to a key/value pair and skipping the element otherwise. -/
def recordFold {α : Type} (g : α → Option (String × String)) (acc : List (String × String))
    (l : List α) : List (String × String) :=
  l.foldl (fun out a => match g a with | some kv => recordAssign out kv | none => out) acc

/-- JS `String.prototype.toLowerCase` on a Lean `String` (ASCII mapping, as in
`jsToLower`; header names are ASCII). -/
def jsStrToLower (s : String) : String :=
  ⟨s.data.map Char.toLower⟩

/-- The hop-by-hop header list of `normalizeHeaders`:
`["transfer-encoding", "connection", "keep-alive"]`. -/
def hopByHopHeaders : List String := ["transfer-encoding", "connection", "keep-alive"]

/-- `normalizeHeaders` from the server: copy every entry whose lowercased key is not
hop-by-hop into a fresh record, preserving the original key casing and value. -/
def normalizeHeaders (h : List (String × String)) : List (String × String) :=
  h.foldl
    (fun out kv =>
      if hopByHopHeaders.contains (jsStrToLower kv.1) then out
      else recordAssign out kv)
    []

/-- Values a JS header map entry can hold in the code under scrutiny: a single
string, an array of strings (for example repeated `set-cookie`), or a non-string
value (`undefined` and friends). -/
inductive JSVal
  | str (s : String)
  | arr (l : List String)
  | undef
deriving DecidableEq

/-- The header collection loop of the public handler:
`for ([k, v] of Object.entries(req.headers)) if (typeof v === "string") headers[k] = v`. -/
def collectStringRequestHeaders (h : List (String × JSVal)) : List (String × String) :=
  h.foldl
    (fun out kv =>
      match kv.2 with
      | .str v => recordAssign out (kv.1, v)
      | _ => out)
    []

/-- `objectifyHeaders` from the client: iterate the origin response header pairs and
keep exactly those whose key and value are both strings (`out[k] = v`); everything
else is silently skipped (the surrounding try/catch only guards non-iterable input). -/
def objectifyHeaders (h : List (JSVal × JSVal)) : List (String × String) :=
  h.foldl
    (fun out kv =>
      match kv with
      | (.str k, .str v) => recordAssign out (k, v)
      | _ => out)
    []

/-- Server-side registry state for the control endpoint `/connect`:
`registry` is the `tunnels` map keyed by subdomain, holding the identifier of the
owning control connection; `assigned` is each connection's `assignedSubdomain`
closure variable; `live` records which control connections are open. -/
structure RegState where
  registry : Subdomain → Option Nat
  assigned : Nat → Option Subdomain
  live : Nat → Bool

/-- Initial registry state: no tunnels, no connections. -/
def regInit : RegState :=
  { registry := fun _ => none, assigned := fun _ => none, live := fun _ => false }

/-- Events on the control endpoint: a WebSocket connect, a `REGISTER_TUNNEL` frame
(carrying the requested subdomain and the base-36 rendering of the `Math.random()`
value used if a random label is needed), and a socket close. -/
inductive RegEvent
  | connect (c : Nat)
  | register (c : Nat) (requested : Option Subdomain) (rand : List Char)
  | close (c : Nat)

/-- One step of the control endpoint, from the `REGISTER_TUNNEL` case and the
`socket.on("close")` handler: registering binds the chosen subdomain (unless taken,
in which case `ERROR SUBDOMAIN_TAKEN` is sent and nothing is bound) and overwrites
`assignedSubdomain`; closing deletes only the entry for the current
`assignedSubdomain` and ends the connection. A fresh connection starts with
`assignedSubdomain` undefined; frames are only delivered on live connections. -/
def regStep (s : RegState) : RegEvent → RegState
  | .connect c =>
      { s with live := updB s.live c true, assigned := upd s.assigned c none }
  | .register c requested rand =>
      if s.live c = false then s
      else
        let sub := registerChooseSub requested (fun d => (s.registry d).isSome) rand
        if (s.registry sub).isSome then s
        else
          { s with
            registry := upd s.registry sub (some c),
            assigned := upd s.assigned c (some sub) }
  | .close c =>
      match s.assigned c with
      | some sub =>
          { registry := upd s.registry sub none,
            assigned := upd s.assigned c none,
            live := updB s.live c false }
      | none => { s with live := updB s.live c false }

/-- Run a list of control-endpoint events from the initial state. -/
def regRun (es : List RegEvent) : RegState :=
  es.foldl regStep regInit

/-- Registry uniqueness invariant: every registry entry is owned by a live
connection whose `assignedSubdomain` is that key, and every assignment is backed by
the matching registry entry (so a subdomain is present iff exactly one live
connection owns it, and no connection owns two subdomains). -/
def RegInv (s : RegState) : Prop :=
  (∀ sub c, s.registry sub = some c → s.live c = true ∧ s.assigned c = some sub) ∧
  (∀ c sub, s.assigned c = some sub → s.registry sub = some c)

/-- States reachable by well-formed control traffic: connections connect with a
fresh identifier, send `REGISTER_TUNNEL` only while they have no assigned
subdomain (retrying after `SUBDOMAIN_TAKEN` is allowed, since a failed registration
assigns nothing), and close while live. -/
inductive GoodReach : RegState → Prop
  | init : GoodReach regInit
  | connect {s : RegState} (c : Nat) :
      GoodReach s → s.live c = false → GoodReach (regStep s (.connect c))
  | register {s : RegState} (c : Nat) (requested : Option Subdomain) (rand : List Char) :
      GoodReach s → s.assigned c = none → GoodReach (regStep s (.register c requested rand))
  | close {s : RegState} (c : Nat) :
      GoodReach s → GoodReach (regStep s (.close c))

/-- Per-tunnel server state: `nextStreamId` and the `streams` map, whose entries
record the per-stream `headersSent` flag (`reply`, the armed timer handle and the
hijacked raw response are represented by the output trace of `tstep`). A tunnel is
created by `REGISTER_TUNNEL` with `nextStreamId: 1` and an empty map. -/
structure TState where
  nextStreamId : Nat
  streams : Nat → Option Bool

/-- The tunnel entry the server constructs in the `REGISTER_TUNNEL` case:
`nextStreamId: 1, streams: new Map()`. -/
def registeredTunnelInit : TState :=
  { nextStreamId := 1, streams := fun _ => none }

/-- Events hitting one tunnel: a public request (which allocates a stream id, arms
the 30 s deadline and emits `OPEN_STREAM`), the client frames `RESP_START`,
`RESP_DATA` and `END phase=res`, and the firing of a stream's 30 s deadline.
`respData` carries the truthiness of `msg.chunk`. A deadline can only fire for a
stream still in the map, since `END phase=res` runs `clearTimeout` as it deletes
the entry and a timer fires at most once. -/
inductive TEvent
  | pubReq
  | respStart (sid statusCode : Nat)
  | respData (sid : Nat) (hasChunk : Bool)
  | endRes (sid : Nat)
  | timeoutFire (sid : Nat)
deriving DecidableEq

/-- Writes observable on the public (hijacked) HTTP response of a stream:
`res.writeHead(status, hs)`, `res.write(chunk)` and `res.end()`. The timeout
handler's `reply.code(504).send({ error: "Upstream timeout" })` never contributes
a write: the reply was hijacked when the request was accepted, and Fastify treats
a hijacked reply as already sent, so that `send` is a swallowed no-op. -/
inductive PubOut
  | wroteHead (sid statusCode : Nat)
  | wroteChunk (sid : Nat)
  | ended (sid : Nat)
deriving DecidableEq

/-- The stream id a public write belongs to. -/
def PubOut.sid : PubOut → Nat
  | .wroteHead s _ => s
  | .wroteChunk s => s
  | .ended s => s

/-- Stream allocation in the public handler: `const streamId = info.nextStreamId++`
followed by `info.streams.set(streamId, { reply, timeout, headersSent: false })`. -/
def allocStream (t : TState) : Nat × TState :=
  (t.nextStreamId,
   { nextStreamId := t.nextStreamId + 1,
     streams := upd t.streams t.nextStreamId (some false) })

/-- One step of a tunnel, returning the new state and the public writes it
performs. `respStart` is guarded by `headersSent` (`if (!entry || entry.headersSent)
break`) and writes `statusCode || 200`; `respData` writes whenever the entry exists
and the chunk is truthy; `endRes` clears the deadline, deletes the entry and ends
the raw response; `timeoutFire` runs `info.streams.delete(streamId)` and then calls
`reply.code(504).send(...)` inside try/catch — but the reply was hijacked, so
Fastify reports it as already sent and the call delivers nothing (any throw is
caught by the empty catch); the callback inspects nothing about `headersSent`. -/
def tstep (t : TState) : TEvent → TState × List PubOut
  | .pubReq =>
      let (_, t') := allocStream t
      (t', [])
  | .respStart sid statusCode =>
      match t.streams sid with
      | none => (t, [])
      | some true => (t, [])
      | some false =>
          ({ t with streams := upd t.streams sid (some true) },
           [.wroteHead sid (if statusCode = 0 then 200 else statusCode)])
  | .respData sid hasChunk =>
      match t.streams sid with
      | none => (t, [])
      | some _ => (t, if hasChunk then [.wroteChunk sid] else [])
  | .endRes sid =>
      match t.streams sid with
      | none => (t, [])
      | some _ => ({ t with streams := upd t.streams sid none }, [.ended sid])
  | .timeoutFire sid =>
      match t.streams sid with
      | none => (t, [])
      | some _ => ({ t with streams := upd t.streams sid none }, [])

/-- Run a list of tunnel events, accumulating the public writes in order. -/
def trun (t : TState) : List TEvent → TState × List PubOut
  | [] => (t, [])
  | e :: es =>
      let (t1, o1) := tstep t e
      let (t2, o2) := trun t1 es
      (t2, o1 ++ o2)

/-- Whether an event is a public-request arrival. -/
def isPubReq : TEvent → Bool
  | .pubReq => true
  | _ => false

/-- The stream ids the public handler allocates during a list of tunnel events
(the value of `info.nextStreamId` read by each `info.nextStreamId++`). -/
def allocsOf (t : TState) : List TEvent → List Nat
  | [] => []
  | .pubReq :: es => t.nextStreamId :: allocsOf (tstep t .pubReq).1 es
  | e :: es => allocsOf (tstep t e).1 es

/-- Server-wide view for the close handler: the `tunnels` registry maps subdomains
to tunnel-object identifiers, and `heap` holds the tunnel objects themselves (which
stay reachable from pending timers and handler closures even after deletion from
the registry). -/
structure Srv where
  tunnels : Subdomain → Option Nat
  heap : Nat → Option TState

/-- The `socket.on("close")` handler of the control endpoint: when the connection
has an `assignedSubdomain`, delete that registry entry (and log); nothing else —
no stream of the tunnel is touched and no public write is performed. -/
def closeHandler (assignedSubdomain : Option Subdomain) (s : Srv) : Srv × List PubOut :=
  match assignedSubdomain with
  | some sub => ({ s with tunnels := upd s.tunnels sub none }, [])
  | none => (s, [])

/-- Frames the client can send on the response side of a stream (headers on
`RESP_START` and chunk payloads are carried separately and elided here). -/
inductive CFrame
  | respStart (statusCode : Nat)
  | respData (chunk : List Nat)
  | endRes
deriving DecidableEq

/-- Whether a client frame is a `RESP_START`. -/
def isRespStart : CFrame → Bool
  | .respStart _ => true
  | _ => false

/-- Whether a client frame is an `END phase=res`. -/
def isEndRes : CFrame → Bool
  | .endRes => true
  | _ => false

/-- The part of the origin's behaviour the client observes after `await request(...)`
resolves: the status code, the body chunks delivered before the body iterator ends
or fails, and whether iterating the body threw after those chunks. -/
structure OriginResponse where
  statusCode : Nat
  chunks : List (List Nat)
  bodyFailed : Bool
deriving DecidableEq

/-- Outcome of the client's HTTP request to the local origin: `failed` when
`await request(...)` itself throws (origin down, refused, etc.), `ok` otherwise. -/
inductive OriginResult
  | failed
  | ok (r : OriginResponse)
deriving DecidableEq

/-- Frames emitted by `handleOpenStream` (stream mode): on success, one
`RESP_START` with the origin status, one `RESP_DATA` per truthy non-empty chunk,
then `END phase=res`; on any exception, `RESP_START` with `statusCode: 502`
followed by `END phase=res`, with no check whether a `RESP_START` was already
sent — an exception thrown while iterating the body therefore produces a second
`RESP_START` after the first one. -/
def hosFrames : OriginResult → List CFrame
  | .failed => [.respStart 502, .endRes]
  | .ok r =>
      .respStart r.statusCode ::
        ((r.chunks.filter (fun c => !c.isEmpty)).map .respData ++
          (if r.bodyFailed then [.respStart 502, .endRes] else [.endRes]))

/-- Frames emitted by `handleBufferedRequest` (buffer mode); the emission logic is
the same as `handleOpenStream`, with the request body sent as one buffer. -/
def hbrFrames : OriginResult → List CFrame
  | .failed => [.respStart 502, .endRes]
  | .ok r =>
      .respStart r.statusCode ::
        ((r.chunks.filter (fun c => !c.isEmpty)).map .respData ++
          (if r.bodyFailed then [.respStart 502, .endRes] else [.endRes]))

/-- Client-side stream mode: `buffer` collects `REQ_DATA` until `END phase=req`,
`stream` pipes chunks through immediately. -/
inductive Mode
  | buffer
  | stream
deriving DecidableEq

/-- Client-side per-stream context (the `body` pipe, `headers`, `method`, `path`
and `tunnelId` fields are elided; `chunks` is the buffer-mode accumulation). -/
structure StreamCtx where
  mode : Mode
  chunks : List (List Nat)
deriving DecidableEq

/-- `handleOpenStream` from the client, as its effect on the stream map and its
emitted frames: it never removes the stream entry — there is no
`streams.delete(streamId)` anywhere in its body, on either the success or the
error path. -/
def handleOpenStream (streams : Nat → Option StreamCtx) (sid : Nat) (o : OriginResult) :
    List CFrame × (Nat → Option StreamCtx) :=
  (hosFrames o, streams)

/-- `handleBufferedRequest` from the client: same emission logic, but its
`finally` block runs `streams.delete(streamId)` on both the success and the error
path. `entry` is the buffered stream context the caller passes in. -/
def handleBufferedRequest (streams : Nat → Option StreamCtx) (sid : Nat)
    (entry : StreamCtx) (o : OriginResult) : List CFrame × (Nat → Option StreamCtx) :=
  (hbrFrames o, upd streams sid none)

/-! ### Lemmas about JS record assignment -/

lemma recordAssign_mem {m : List (String × String)} {kv q : String × String}
    (h : q ∈ recordAssign m kv) : q ∈ m ∨ q = kv := by
  unfold recordAssign at h
  by_cases hany : m.any (fun p => p.1 == kv.1) = true
  · rw [if_pos hany] at h
    obtain ⟨p, hp, hq⟩ := List.mem_map.mp h
    by_cases hk : (p.1 == kv.1) = true
    · right
      rw [if_pos hk] at hq
      have : p.1 = kv.1 := beq_iff_eq.mp hk
      rw [← hq, this]
    · left
      rw [if_neg hk] at hq
      rwa [← hq]
  · rw [if_neg hany] at h
    rcases List.mem_append.mp h with h1 | h1
    · exact Or.inl h1
    · exact Or.inr (List.mem_singleton.mp h1)

lemma recordAssign_key {m : List (String × String)} {kv : String × String} {a : String} :
    a ∈ (recordAssign m kv).map Prod.fst ↔ a ∈ m.map Prod.fst ∨ a = kv.1 := by
  unfold recordAssign
  by_cases hany : m.any (fun p => p.1 == kv.1) = true
  · rw [if_pos hany]
    have hkeys : (m.map (fun p => if p.1 == kv.1 then (p.1, kv.2) else p)).map Prod.fst
        = m.map Prod.fst := by
      rw [List.map_map]
      apply List.map_congr_left
      intro p _
      simp only [Function.comp]
      split <;> rfl
    rw [hkeys]
    obtain ⟨p, hp, hpk⟩ := List.any_eq_true.mp hany
    constructor
    · exact Or.inl
    · rintro (h | h)
      · exact h
      · rw [h, ← beq_iff_eq.mp hpk]
        exact List.mem_map.mpr ⟨p, hp, rfl⟩
  · rw [if_neg hany, List.map_append]
    simp [List.mem_append]

lemma recordAssign_of_fresh {m : List (String × String)} {kv : String × String}
    (h : kv.1 ∉ m.map Prod.fst) : recordAssign m kv = m ++ [kv] := by
  unfold recordAssign
  rw [if_neg]
  intro hany
  obtain ⟨p, hp, hpk⟩ := List.any_eq_true.mp hany
  exact h (beq_iff_eq.mp hpk ▸ List.mem_map.mpr ⟨p, hp, rfl⟩)

lemma recordFold_mem {α : Type} (g : α → Option (String × String)) :
    ∀ (l : List α) (acc : List (String × String)) (q : String × String),
      q ∈ recordFold g acc l → q ∈ acc ∨ ∃ a ∈ l, g a = some q := by
  intro l
  induction l with
  | nil => intro acc q h; exact Or.inl h
  | cons a l ih =>
      intro acc q h
      have hcons : recordFold g acc (a :: l) =
          recordFold g (match g a with | some kv => recordAssign acc kv | none => acc) l := rfl
      rw [hcons] at h
      cases hga : g a with
      | none =>
          rw [hga] at h
          rcases ih acc q h with h1 | ⟨b, hb, hgb⟩
          · exact Or.inl h1
          · exact Or.inr ⟨b, List.mem_cons_of_mem a hb, hgb⟩
      | some kv =>
          rw [hga] at h
          rcases ih (recordAssign acc kv) q h with h1 | ⟨b, hb, hgb⟩
          · rcases recordAssign_mem h1 with h2 | h2
            · exact Or.inl h2
            · exact Or.inr ⟨a, List.mem_cons_self a l, by rw [hga, h2]⟩
          · exact Or.inr ⟨b, List.mem_cons_of_mem a hb, hgb⟩

lemma recordFold_key {α : Type} (g : α → Option (String × String)) :
    ∀ (l : List α) (acc : List (String × String)) (k : String),
      k ∈ (recordFold g acc l).map Prod.fst ↔
        k ∈ acc.map Prod.fst ∨ ∃ a ∈ l, ∃ v, g a = some (k, v) := by
  intro l
  induction l with
  | nil => intro acc k; simp [recordFold]
  | cons a l ih =>
      intro acc k
      have hcons : recordFold g acc (a :: l) =
          recordFold g (match g a with | some kv => recordAssign acc kv | none => acc) l := rfl
      rw [hcons]
      cases hga : g a with
      | none =>
          rw [ih]
          constructor
          · rintro (h | ⟨b, hb, v, hgb⟩)
            · exact Or.inl h
            · exact Or.inr ⟨b, List.mem_cons_of_mem a hb, v, hgb⟩
          · rintro (h | ⟨b, hb, v, hgb⟩)
            · exact Or.inl h
            · rcases List.mem_cons.mp hb with rfl | hb2
              · rw [hga] at hgb; cases hgb
              · exact Or.inr ⟨b, hb2, v, hgb⟩
      | some kv =>
          rw [ih, recordAssign_key]
          constructor
          · rintro ((h | h) | ⟨b, hb, v, hgb⟩)
            · exact Or.inl h
            · refine Or.inr ⟨a, List.mem_cons_self a l, kv.2, ?_⟩
              rw [hga, h]
            · exact Or.inr ⟨b, List.mem_cons_of_mem a hb, v, hgb⟩
          · rintro (h | ⟨b, hb, v, hgb⟩)
            · exact Or.inl (Or.inl h)
            · rcases List.mem_cons.mp hb with rfl | hb2
              · rw [hga] at hgb
                injection hgb with hkv
                exact Or.inl (Or.inr (by rw [hkv]))
              · exact Or.inr ⟨b, hb2, v, hgb⟩

lemma recordFold_of_nodup {α : Type} (g : α → Option (String × String)) :
    ∀ (l : List α) (acc : List (String × String)),
      ((l.filterMap g).map Prod.fst).Nodup →
      (∀ k, k ∈ acc.map Prod.fst → k ∉ (l.filterMap g).map Prod.fst) →
      recordFold g acc l = acc ++ l.filterMap g := by
  intro l
  induction l with
  | nil => intro acc _ _; simp [recordFold]
  | cons a l ih =>
      intro acc hnd hdisj
      have hcons : recordFold g acc (a :: l) =
          recordFold g (match g a with | some kv => recordAssign acc kv | none => acc) l := rfl
      rw [hcons]
      cases hga : g a with
      | none =>
          have hfm : (a :: l).filterMap g = l.filterMap g := by
            rw [List.filterMap_cons, hga]
          rw [hfm] at hnd hdisj
          show recordFold g acc l = acc ++ (a :: l).filterMap g
          rw [hfm]
          exact ih acc hnd hdisj
      | some kv =>
          have hfm : (a :: l).filterMap g = kv :: l.filterMap g := by
            rw [List.filterMap_cons, hga]
          rw [hfm] at hnd hdisj
          rw [List.map_cons] at hnd
          have hk1 : kv.1 ∉ (l.filterMap g).map Prod.fst := (List.nodup_cons.mp hnd).1
          have hndl : ((l.filterMap g).map Prod.fst).Nodup := (List.nodup_cons.mp hnd).2
          have hfresh : kv.1 ∉ acc.map Prod.fst := by
            intro hmem
            refine hdisj kv.1 hmem ?_
            rw [List.map_cons]
            exact List.mem_cons_self _ _
          have hdisj2 : ∀ k, k ∈ (acc ++ [kv]).map Prod.fst →
              k ∉ (l.filterMap g).map Prod.fst := by
            intro k hk hk3
            rw [List.map_append] at hk
            rcases List.mem_append.mp hk with hk2 | hk2
            · refine hdisj k hk2 ?_
              rw [List.map_cons]
              exact List.mem_cons_of_mem _ hk3
            · have hkeq : k = kv.1 := by simpa using hk2
              rw [hkeq] at hk3
              exact hk1 hk3
          show recordFold g (recordAssign acc kv) l = acc ++ (a :: l).filterMap g
          rw [recordAssign_of_fresh hfresh, ih (acc ++ [kv]) hndl hdisj2, hfm,
            List.append_assoc]
          rfl

lemma filterMap_guard_sublist {α : Type} (p : α → Bool) (l : List α) :
    (l.filterMap (fun a => if p a then none else some a)).Sublist l := by
  induction l with
  | nil => exact List.Sublist.refl _
  | cons a l ih =>
      rw [List.filterMap_cons]
      by_cases hc : p a = true
      · rw [if_pos hc]
        exact ih.cons a
      · rw [if_neg hc]
        exact ih.cons₂ a

lemma foldl_step_eq {α : Type} (g : α → Option (String × String))
    (f : List (String × String) → α → List (String × String))
    (hf : ∀ out a, f out a =
      match g a with | some kv => recordAssign out kv | none => out) :
    ∀ (l : List α) (acc : List (String × String)), l.foldl f acc = recordFold g acc l := by
  intro l
  induction l with
  | nil => intro acc; rfl
  | cons a l ih =>
      intro acc
      rw [List.foldl_cons, hf]
      exact ih _

lemma normalizeHeaders_eq (h : List (String × String)) :
    normalizeHeaders h = recordFold
      (fun kv => if hopByHopHeaders.contains (jsStrToLower kv.1) then none else some kv)
      [] h := by
  apply foldl_step_eq
  intro out kv
  by_cases hc : hopByHopHeaders.contains (jsStrToLower kv.1) = true
  · rw [if_pos hc, if_pos hc]
  · rw [if_neg hc, if_neg hc]

lemma collectStringRequestHeaders_eq (h : List (String × JSVal)) :
    collectStringRequestHeaders h = recordFold
      (fun kv => match kv.2 with | .str v => some (kv.1, v) | _ => none) [] h := by
  apply foldl_step_eq
  intro out kv
  obtain ⟨a, b⟩ := kv
  cases b <;> rfl

lemma objectifyHeaders_eq (h : List (JSVal × JSVal)) :
    objectifyHeaders h = recordFold
      (fun kv => match kv with | (.str k, .str v) => some (k, v) | _ => none) [] h := by
  apply foldl_step_eq
  intro out kv
  obtain ⟨a, b⟩ := kv
  cases a <;> cases b <;> rfl

/-- C6: for every RESP_START header map, the header set the server writes to the
public response (via `res.writeHead(status, normalizeHeaders(headers))`) never
contains `transfer-encoding`, `connection` or `keep-alive` under case-insensitive
comparison; nothing is written that was not in the incoming map; and — for header
maps with distinct keys, which is what a JS `Record` always yields — every
non-hop-by-hop header is passed through with its original key casing and value. -/
theorem c6_hop_by_hop_stripping :
    (∀ (h : List (String × String)) (kv : String × String), kv ∈ normalizeHeaders h →
      hopByHopHeaders.contains (jsStrToLower kv.1) = false) ∧
    (∀ (h : List (String × String)) (kv : String × String), kv ∈ normalizeHeaders h →
      kv ∈ h) ∧
    (∀ (h : List (String × String)), (h.map Prod.fst).Nodup →
      ∀ kv : String × String, kv ∈ h →
      hopByHopHeaders.contains (jsStrToLower kv.1) = false → kv ∈ normalizeHeaders h) := by
  have hsrc : ∀ (h : List (String × String)) (kv : String × String),
      kv ∈ normalizeHeaders h →
      hopByHopHeaders.contains (jsStrToLower kv.1) = false ∧ kv ∈ h := by
    intro h kv hmem
    rw [normalizeHeaders_eq] at hmem
    rcases recordFold_mem _ h [] kv hmem with h0 | ⟨a, ha, hga⟩
    · simp at h0
    · by_cases hc : hopByHopHeaders.contains (jsStrToLower a.1) = true
      · rw [if_pos hc] at hga
        cases hga
      · rw [if_neg hc] at hga
        injection hga with haq
        rw [← haq]
        exact ⟨by simpa using hc, ha⟩
  refine ⟨fun h kv hmem => (hsrc h kv hmem).1, fun h kv hmem => (hsrc h kv hmem).2, ?_⟩
  intro h hnd kv hkv hc
  have hsub := filterMap_guard_sublist
    (fun kv : String × String => hopByHopHeaders.contains (jsStrToLower kv.1)) h
  have hnd2 : ((h.filterMap
      (fun kv => if hopByHopHeaders.contains (jsStrToLower kv.1) then none
        else some kv)).map Prod.fst).Nodup :=
    hnd.sublist (hsub.map Prod.fst)
  rw [normalizeHeaders_eq, recordFold_of_nodup _ h [] hnd2 (by simp), List.nil_append]
  refine List.mem_filterMap.mpr ⟨kv, hkv, ?_⟩
  rw [if_neg]
  simpa using hc

/-- C6 witness: a concrete map with a `Connection` header stripped and an ordinary
header passed through unchanged. -/
theorem c6_witness :
    ("X-A", "v") ∈ normalizeHeaders [("Connection", "close"), ("X-A", "v")] :=
  c6_hop_by_hop_stripping.2.2 [("Connection", "close"), ("X-A", "v")] (by decide)
    ("X-A", "v") (by decide) (by decide)

/-- C10: only header entries whose value is a single string cross the tunnel. The
server's OPEN_STREAM header loop keeps exactly the string-valued request headers
(array-valued entries such as repeated set-cookie are silently omitted, not joined
or errored), and the client's `objectifyHeaders` keeps exactly the origin response
entries whose key and value are both strings. -/
theorem c10_single_string_headers :
    (∀ (h : List (String × JSVal)) (kv : String × String),
      kv ∈ collectStringRequestHeaders h → (kv.1, JSVal.str kv.2) ∈ h) ∧
    (∀ (h : List (String × JSVal)) (k : String), (∀ v, (k, JSVal.str v) ∉ h) →
      ∀ v, (k, v) ∉ collectStringRequestHeaders h) ∧
    (∀ (h : List (String × JSVal)) (k : String) (v : String), (k, JSVal.str v) ∈ h →
      ∃ w, (k, w) ∈ collectStringRequestHeaders h) ∧
    (∀ (h : List (JSVal × JSVal)) (kv : String × String),
      kv ∈ objectifyHeaders h → (JSVal.str kv.1, JSVal.str kv.2) ∈ h) ∧
    (∀ (h : List (JSVal × JSVal)) (k : String), (∀ v, (JSVal.str k, JSVal.str v) ∉ h) →
      ∀ v, (k, v) ∉ objectifyHeaders h) ∧
    (∀ (h : List (JSVal × JSVal)) (k : String) (v : String),
      (JSVal.str k, JSVal.str v) ∈ h → ∃ w, (k, w) ∈ objectifyHeaders h) := by
  have h1 : ∀ (h : List (String × JSVal)) (kv : String × String),
      kv ∈ collectStringRequestHeaders h → (kv.1, JSVal.str kv.2) ∈ h := by
    intro h kv hmem
    rw [collectStringRequestHeaders_eq] at hmem
    rcases recordFold_mem _ h [] kv hmem with h0 | ⟨a, ha, hga⟩
    · simp at h0
    · obtain ⟨k, w⟩ := a
      cases w with
      | str v =>
          injection hga with hq
          rw [← hq]
          exact ha
      | arr l => cases hga
      | undef => cases hga
  have h4 : ∀ (h : List (JSVal × JSVal)) (kv : String × String),
      kv ∈ objectifyHeaders h → (JSVal.str kv.1, JSVal.str kv.2) ∈ h := by
    intro h kv hmem
    rw [objectifyHeaders_eq] at hmem
    rcases recordFold_mem _ h [] kv hmem with h0 | ⟨a, ha, hga⟩
    · simp at h0
    · obtain ⟨a, b⟩ := a
      cases a <;> cases b <;> cases hga
      exact ha
  refine ⟨h1, ?_, ?_, h4, ?_, ?_⟩
  · intro h k hnone v hmem
    exact hnone v (h1 h (k, v) hmem)
  · intro h k v hkv
    have hkey : k ∈ (collectStringRequestHeaders h).map Prod.fst := by
      rw [collectStringRequestHeaders_eq]
      refine (recordFold_key _ h [] k).mpr (Or.inr ⟨(k, JSVal.str v), hkv, v, rfl⟩)
    obtain ⟨p, hp, hpk⟩ := List.mem_map.mp hkey
    exact ⟨p.2, by rw [← hpk, Prod.mk.eta]; exact hp⟩
  · intro h k hnone v hmem
    exact hnone v (h4 h (k, v) hmem)
  · intro h k v hkv
    have hkey : k ∈ (objectifyHeaders h).map Prod.fst := by
      rw [objectifyHeaders_eq]
      refine (recordFold_key _ h [] k).mpr (Or.inr ⟨(JSVal.str k, JSVal.str v), hkv, v, rfl⟩)
    obtain ⟨p, hp, hpk⟩ := List.mem_map.mp hkey
    exact ⟨p.2, by rw [← hpk, Prod.mk.eta]; exact hp⟩

/-- C10 witness: next to an array-valued `set-cookie` entry, the string-valued
header `x` does cross the tunnel. -/
theorem c10_witness :
    ∃ w, ("x", w) ∈ collectStringRequestHeaders
      [("set-cookie", JSVal.arr ["a=1", "b=2"]), ("x", JSVal.str "y")] :=
  c10_single_string_headers.2.2.1
    [("set-cookie", JSVal.arr ["a=1", "b=2"]), ("x", JSVal.str "y")]
    "x" "y" (by decide)

/-- C1 counterexample: a control connection that successfully registers twice and
then closes leaves its first subdomain orphaned in the registry. After the event
sequence connect, register "abc", register "xyz", close, the key "abc" still maps
to connection 0 although no connection is live and none has it assigned — so a
subdomain is present in the registry without a live owning control connection,
and the entry is never deleted on close, refuting the claimed invariant. -/
theorem c1_counterexample :
    ((regRun [RegEvent.connect 0,
              RegEvent.register 0 (some ("abc".data)) ("0.k7q1m2x9".data),
              RegEvent.register 0 (some ("xyz".data)) ("0.m3p8q1w5".data),
              RegEvent.close 0]).registry ("abc".data) = some 0 ∧
     (regRun [RegEvent.connect 0,
              RegEvent.register 0 (some ("abc".data)) ("0.k7q1m2x9".data),
              RegEvent.register 0 (some ("xyz".data)) ("0.m3p8q1w5".data),
              RegEvent.close 0]).live 0 = false ∧
     (regRun [RegEvent.connect 0,
              RegEvent.register 0 (some ("abc".data)) ("0.k7q1m2x9".data),
              RegEvent.register 0 (some ("xyz".data)) ("0.m3p8q1w5".data),
              RegEvent.close 0]).assigned 0 = none) ∧
    ¬ RegInv (regRun [RegEvent.connect 0,
              RegEvent.register 0 (some ("abc".data)) ("0.k7q1m2x9".data),
              RegEvent.register 0 (some ("xyz".data)) ("0.m3p8q1w5".data),
              RegEvent.close 0]) := by
  refine ⟨by decide, fun hInv => ?_⟩
  have hlive := (hInv.1 ("abc".data) 0 (by decide)).1
  exact absurd hlive (by decide)

/-- C1 (amended): in every run in which each connection sends REGISTER_TUNNEL only
while it has no assigned subdomain (the repository client sends it exactly once;
retry after SUBDOMAIN_TAKEN is allowed since a failed registration assigns
nothing), the registry invariant holds at all times: every subdomain key maps to a
live control connection whose assigned subdomain is that key, and every assignment
is backed by the matching registry entry — so a subdomain is present in the
registry iff exactly one live control connection owns it, and close always deletes
the closing connection's entry. -/
theorem c1_registry_uniqueness (s : RegState) (h : GoodReach s) : RegInv s := by
  induction h with
  | init =>
      constructor
      · intro sub c hreg
        simp [regInit] at hreg
      · intro c sub ha
        simp [regInit] at ha
  | @connect s1 c h hlive ih =>
      obtain ⟨ih1, ih2⟩ := ih
      constructor
      · intro sub c2 hreg
        simp only [regStep] at hreg ⊢
        obtain ⟨hl, ha⟩ := ih1 sub c2 hreg
        by_cases hc : c2 = c
        · rw [hc, hlive] at hl
          cases hl
        · constructor
          · simp [updB, hc, hl]
          · simp [upd, hc, ha]
      · intro c2 sub ha
        simp only [regStep] at ha ⊢
        by_cases hc : c2 = c
        · rw [hc] at ha
          simp [upd] at ha
        · simp only [upd, if_neg hc] at ha
          exact ih2 c2 sub ha
  | @register s1 c requested rand h hassigned ih =>
      obtain ⟨ih1, ih2⟩ := ih
      by_cases hlive : s1.live c = false
      · constructor
        · intro sub c2 hreg
          simp only [regStep] at hreg ⊢
          rw [if_pos hlive] at hreg ⊢
          exact ih1 sub c2 hreg
        · intro c2 sub ha
          simp only [regStep] at ha ⊢
          rw [if_pos hlive] at ha ⊢
          exact ih2 c2 sub ha
      · have hlive2 : s1.live c = true := by
          revert hlive
          cases s1.live c
          · intro hl
            exact absurd rfl hl
          · intro _
            rfl
        by_cases htaken :
            (s1.registry (registerChooseSub requested
              (fun d => (s1.registry d).isSome) rand)).isSome = true
        · constructor
          · intro sub c2 hreg
            simp only [regStep, hlive2] at hreg ⊢
            rw [if_neg (by simp)] at hreg ⊢
            rw [if_pos htaken] at hreg ⊢
            exact ih1 sub c2 hreg
          · intro c2 sub ha
            simp only [regStep, hlive2] at ha ⊢
            rw [if_neg (by simp)] at ha
            rw [if_pos htaken] at ha
            rw [if_neg (by simp), if_pos htaken]
            exact ih2 c2 sub ha
        · constructor
          · intro sub c2 hreg
            simp only [regStep, hlive2] at hreg ⊢
            rw [if_neg (by simp)] at hreg ⊢
            rw [if_neg htaken] at hreg ⊢
            simp only [upd] at hreg
            by_cases hsub : sub = registerChooseSub requested
                (fun d => (s1.registry d).isSome) rand
            · rw [if_pos hsub] at hreg
              injection hreg with hc2
              rw [← hc2]
              refine ⟨hlive2, ?_⟩
              simp [upd, hsub]
            · rw [if_neg hsub] at hreg
              obtain ⟨hl, ha⟩ := ih1 sub c2 hreg
              refine ⟨hl, ?_⟩
              by_cases hc : c2 = c
              · rw [hc, hassigned] at ha
                cases ha
              · simp [upd, hc, ha]
          · intro c2 sub ha
            simp only [regStep, hlive2] at ha ⊢
            rw [if_neg (by simp)] at ha ⊢
            rw [if_neg htaken] at ha ⊢
            simp only [upd] at ha ⊢
            by_cases hc : c2 = c
            · rw [if_pos hc] at ha
              injection ha with hsub
              rw [← hsub]
              simp [hc]
            · rw [if_neg hc] at ha
              have hreg := ih2 c2 sub ha
              by_cases hsub : sub = registerChooseSub requested
                  (fun d => (s1.registry d).isSome) rand
              · rw [hsub] at hreg
                rw [hreg] at htaken
                exact absurd rfl htaken
              · rw [if_neg hsub]
                exact hreg
  | @close s1 c h ih =>
      obtain ⟨ih1, ih2⟩ := ih
      cases hass : s1.assigned c with
      | none =>
          constructor
          · intro sub c2 hreg
            simp only [regStep, hass] at hreg ⊢
            obtain ⟨hl, ha⟩ := ih1 sub c2 hreg
            by_cases hc : c2 = c
            · rw [hc, hass] at ha
              cases ha
            · exact ⟨by simp [updB, hc, hl], ha⟩
          · intro c2 sub ha
            simp only [regStep, hass] at ha ⊢
            exact ih2 c2 sub ha
      | some sub0 =>
          have hreg0 : s1.registry sub0 = some c := ih2 c sub0 hass
          constructor
          · intro sub c2 hreg
            simp only [regStep, hass, upd] at hreg ⊢
            by_cases hsub : sub = sub0
            · rw [if_pos hsub] at hreg
              cases hreg
            · rw [if_neg hsub] at hreg
              obtain ⟨hl, ha⟩ := ih1 sub c2 hreg
              by_cases hc : c2 = c
              · rw [hc, hass] at ha
                injection ha with hss
                exact absurd hss.symm hsub
              · refine ⟨by simp [updB, hc, hl], ?_⟩
                simp [upd, hc, ha]
          · intro c2 sub ha
            simp only [regStep, hass, upd] at ha ⊢
            by_cases hc : c2 = c
            · rw [if_pos hc] at ha
              cases ha
            · rw [if_neg hc] at ha
              have hreg := ih2 c2 sub ha
              by_cases hsub : sub = sub0
              · rw [hsub, hreg0] at hreg
                injection hreg with hcc
                exact absurd hcc.symm hc
              · rw [if_neg hsub]
                exact hreg

/-- C1 witness: the invariant holds in the concrete reachable state obtained by one
connection registering one subdomain. -/
theorem c1_witness :
    RegInv (regStep (regStep regInit (RegEvent.connect 0))
      (RegEvent.register 0 (some ("app".data)) ("0.k7q1m2x9".data))) :=
  c1_registry_uniqueness _
    (GoodReach.register 0 (some ("app".data)) ("0.k7q1m2x9".data)
      (GoodReach.connect 0 GoodReach.init (by decide)) (by decide))

lemma base36_isSubdomainChar {c : Char} (h : isBase36Digit c = true) :
    isSubdomainChar c = true := by
  simp only [isBase36Digit, Bool.or_eq_true] at h
  simp only [isSubdomainChar, Bool.or_eq_true]
  tauto

/-- C2 counterexample: `Math.random()` can return 0.5, whose base-36 rendering is
the string `0.i`; the synthesized label is then `i` — one character, not 7 — it
fails `^[a-z0-9-]{3,63}$`, and the server still binds it in the registry, since the
`REGISTER_TUNNEL` case never re-validates a synthesized label. -/
theorem c2_counterexample :
    generateRandomSubdomain ("0.i".data) = "i".data ∧
    ("i".data).length ≠ 7 ∧
    isValidSubdomain ("i".data) = false ∧
    (regRun [RegEvent.connect 0, RegEvent.register 0 none ("0.i".data)]).registry ("i".data)
      = some 0 := by
  decide

/-- C2 (amended): a requested subdomain is used only when it passes
`isValidSubdomain` (and is free), so every subdomain accepted via the requested
path matches the regex; the synthesized label consists of the first
`min 7 (length digits)` base-36 fraction digits of the random value — all of its
characters lie in `[a-z0-9]`, it has exactly 7 characters and matches the regex
whenever the rendering has at least 7 fraction digits, but it is bound without
revalidation and can be shorter than 3 characters when the rendering is short. -/
theorem c2_subdomain_validity (requested : Option Subdomain) (taken : Subdomain → Bool)
    (ds : List Char) (hds : ds.all isBase36Digit = true) :
    (∀ r, requested = some r → isValidSubdomain r = true → taken r = false →
      registerChooseSub requested taken ('0' :: '.' :: ds) = r) ∧
    generateRandomSubdomain ('0' :: '.' :: ds) = ds.take 7 ∧
    (generateRandomSubdomain ('0' :: '.' :: ds)).length = min 7 ds.length ∧
    (generateRandomSubdomain ('0' :: '.' :: ds)).all isSubdomainChar = true ∧
    (7 ≤ ds.length → isValidSubdomain (generateRandomSubdomain ('0' :: '.' :: ds)) = true) := by
  have hgen : generateRandomSubdomain ('0' :: '.' :: ds) = ds.take 7 := by
    simp [generateRandomSubdomain, jsSlice]
  have hall : (ds.take 7).all isSubdomainChar = true := by
    rw [List.all_eq_true] at hds ⊢
    intro c hcmem
    exact base36_isSubdomainChar (hds c (List.take_subset 7 ds hcmem))
  refine ⟨?_, hgen, ?_, ?_, ?_⟩
  · intro r hr hval hfree
    rw [hr]
    simp [registerChooseSub, hval, hfree]
  · rw [hgen]
    exact List.length_take 7 ds
  · rw [hgen]
    exact hall
  · intro hlen
    rw [hgen]
    simp only [isValidSubdomain, List.length_take]
    rw [Nat.min_eq_left hlen]
    simp [hall]

/-- C2 witness: for a typical random rendering with at least 7 base-36 fraction
digits, the synthesized label is valid. -/
theorem c2_witness :
    isValidSubdomain (generateRandomSubdomain ('0' :: '.' :: "k7q1m2x9".data)) = true :=
  (c2_subdomain_validity none (fun _ => false) ("k7q1m2x9".data) (by decide)).2.2.2.2
    (by decide)

/-- C3 counterexample: when the origin produces status and headers (RESP_START 200
is sent) and the body iteration then throws, the catch block of `handleOpenStream`
sends a second RESP_START with statusCode 502 — the client emits two RESP_START
frames for one stream, a retroactive error after partial headers. -/
theorem c3_counterexample :
    hosFrames (OriginResult.ok ⟨200, [], true⟩)
      = [CFrame.respStart 200, CFrame.respStart 502, CFrame.endRes] ∧
    (hosFrames (OriginResult.ok ⟨200, [], true⟩)).countP isRespStart = 2 := by
  decide

/-- C3 (amended): per stream handling the client emits exactly one END phase=res
and at most two RESP_START frames; an exception before the origin response yields
exactly RESP_START 502 followed by END res; a fault-free response yields exactly
one RESP_START; and an exception after the RESP_START was sent yields a second,
retroactive RESP_START 502 immediately before the final END res (the server's
headersSent guard is what discards the duplicate). `handleBufferedRequest` emits
identically. -/
theorem c3_response_frame_discipline (o : OriginResult) :
    (hosFrames o).countP isEndRes = 1 ∧
    (hosFrames o).countP isRespStart ≤ 2 ∧
    (o = OriginResult.failed → hosFrames o = [CFrame.respStart 502, CFrame.endRes]) ∧
    (∀ r, o = OriginResult.ok r → r.bodyFailed = false →
      (hosFrames o).countP isRespStart = 1) ∧
    (∀ r, o = OriginResult.ok r → r.bodyFailed = true →
      ∃ pre, hosFrames o
          = CFrame.respStart r.statusCode :: pre ++ [CFrame.respStart 502, CFrame.endRes] ∧
        pre.countP isRespStart = 0 ∧ pre.countP isEndRes = 0) ∧
    hbrFrames o = hosFrames o := by
  have hmapRS : ∀ (l : List (List Nat)), (l.map CFrame.respData).countP isRespStart = 0 := by
    intro l
    rw [List.countP_map]
    simp [Function.comp, isRespStart]
  have hmapER : ∀ (l : List (List Nat)), (l.map CFrame.respData).countP isEndRes = 0 := by
    intro l
    rw [List.countP_map]
    simp [Function.comp, isEndRes]
  cases o with
  | failed =>
      refine ⟨by decide, by decide, fun _ => rfl, ?_, ?_, rfl⟩
      · intro r h
        cases h
      · intro r h
        cases h
  | ok r =>
      cases hb : r.bodyFailed with
      | false =>
          refine ⟨?_, ?_, ?_, ?_, ?_, rfl⟩
          · simp [hosFrames, hb, List.countP_append, List.countP_cons, hmapER, isEndRes,
              isRespStart]
          · simp [hosFrames, hb, List.countP_append, List.countP_cons, hmapRS, isRespStart]
          · intro h
            cases h
          · intro r2 h hbf
            injection h with h2
            subst h2
            simp [hosFrames, hb, List.countP_append, List.countP_cons, hmapRS, isRespStart]
          · intro r2 h hbf
            injection h with h2
            subst h2
            rw [hb] at hbf
            cases hbf
      | true =>
          refine ⟨?_, ?_, ?_, ?_, ?_, rfl⟩
          · simp [hosFrames, hb, List.countP_append, List.countP_cons, hmapER, isEndRes,
              isRespStart]
          · simp [hosFrames, hb, List.countP_append, List.countP_cons, hmapRS, isRespStart]
          · intro h
            cases h
          · intro r2 h hbf
            injection h with h2
            subst h2
            rw [hb] at hbf
            cases hbf
          · intro r2 h _
            injection h with h2
            subst h2
            refine ⟨(r.chunks.filter (fun c => !c.isEmpty)).map CFrame.respData, ?_, ?_, ?_⟩
            · simp [hosFrames, hb]
            · exact hmapRS _
            · exact hmapER _

/-- C3 witness: a fault-free origin response produces exactly one RESP_START. -/
theorem c3_witness :
    (hosFrames (OriginResult.ok ⟨200, [[1]], false⟩)).countP isRespStart = 1 :=
  (c3_response_frame_discipline (OriginResult.ok ⟨200, [[1]], false⟩)).2.2.2.1
    ⟨200, [[1]], false⟩ rfl rfl

/-- C9 counterexample: a stream-mode request runs to completion — the emitted
frames end with the terminal END phase=res — yet the stream's entry is still in
the client's map afterwards, because `handleOpenStream` contains no
`streams.delete`. -/
theorem c9_counterexample :
    (handleOpenStream (upd (fun _ => none) 1 (some ⟨Mode.stream, []⟩)) 1
        (OriginResult.ok ⟨200, [[1]], false⟩)).1
      = [CFrame.respStart 200, CFrame.respData [1], CFrame.endRes] ∧
    (handleOpenStream (upd (fun _ => none) 1 (some ⟨Mode.stream, []⟩)) 1
        (OriginResult.ok ⟨200, [[1]], false⟩)).2 1 = some ⟨Mode.stream, []⟩ := by
  decide

/-- C9 (amended): the client removes a buffered-mode stream from its map on
terminal END phase=res and on error finalization (the `finally` block of
`handleBufferedRequest` deletes it in both cases), but a stream-mode entry is
never removed — `handleOpenStream` leaves the map untouched on every path. -/
theorem c9_stream_cleanup (streams : Nat → Option StreamCtx) (sid : Nat)
    (entry : StreamCtx) (o : OriginResult) :
    (handleBufferedRequest streams sid entry o).2 sid = none ∧
    (handleOpenStream streams sid o).2 = streams := by
  constructor
  · simp [handleBufferedRequest, upd]
  · rfl

lemma tstep_no_write_of_absent (t : TState) (e : TEvent) (sid : Nat)
    (hnone : t.streams sid = none) (hlt : sid < t.nextStreamId) :
    ((tstep t e).1.streams sid = none ∧ sid < (tstep t e).1.nextStreamId) ∧
    ∀ o ∈ (tstep t e).2, PubOut.sid o ≠ sid := by
  cases e with
  | pubReq =>
      simp only [tstep, allocStream]
      refine ⟨⟨?_, by omega⟩, ?_⟩
      · simp only [upd]
        rw [if_neg (by omega)]
        exact hnone
      · intro o ho
        simp at ho
  | respStart sid2 st =>
      cases hs2 : t.streams sid2 with
      | none =>
          simp only [tstep, hs2]
          exact ⟨⟨hnone, hlt⟩, fun o ho => by simp at ho⟩
      | some b =>
          have hne : sid ≠ sid2 := by
            intro hEq
            rw [hEq, hs2] at hnone
            cases hnone
          cases b with
          | true =>
              simp only [tstep, hs2]
              exact ⟨⟨hnone, hlt⟩, fun o ho => by simp at ho⟩
          | false =>
              simp only [tstep, hs2]
              refine ⟨⟨?_, hlt⟩, ?_⟩
              · simp only [upd]
                rw [if_neg hne]
                exact hnone
              · intro o ho
                rw [List.mem_singleton] at ho
                rw [ho]
                simp only [PubOut.sid]
                exact hne.symm
  | respData sid2 hc =>
      cases hs2 : t.streams sid2 with
      | none =>
          simp only [tstep, hs2]
          exact ⟨⟨hnone, hlt⟩, fun o ho => by simp at ho⟩
      | some b =>
          have hne : sid ≠ sid2 := by
            intro hEq
            rw [hEq, hs2] at hnone
            cases hnone
          simp only [tstep, hs2]
          refine ⟨⟨hnone, hlt⟩, ?_⟩
          intro o ho
          cases hc with
          | false => simp at ho
          | true =>
              rw [if_pos rfl] at ho
              rw [List.mem_singleton] at ho
              rw [ho]
              simp only [PubOut.sid]
              exact hne.symm
  | endRes sid2 =>
      cases hs2 : t.streams sid2 with
      | none =>
          simp only [tstep, hs2]
          exact ⟨⟨hnone, hlt⟩, fun o ho => by simp at ho⟩
      | some b =>
          have hne : sid ≠ sid2 := by
            intro hEq
            rw [hEq, hs2] at hnone
            cases hnone
          simp only [tstep, hs2]
          refine ⟨⟨?_, hlt⟩, ?_⟩
          · simp only [upd]
            rw [if_neg hne]
            exact hnone
          · intro o ho
            rw [List.mem_singleton] at ho
            rw [ho]
            simp only [PubOut.sid]
            exact hne.symm
  | timeoutFire sid2 =>
      cases hs2 : t.streams sid2 with
      | none =>
          simp only [tstep, hs2]
          exact ⟨⟨hnone, hlt⟩, fun o ho => by simp at ho⟩
      | some b =>
          have hne : sid ≠ sid2 := by
            intro hEq
            rw [hEq, hs2] at hnone
            cases hnone
          simp only [tstep, hs2]
          refine ⟨⟨?_, hlt⟩, ?_⟩
          · simp only [upd]
            rw [if_neg hne]
            exact hnone
          · intro o ho
            simp at ho

lemma trun_no_write_of_absent (es : List TEvent) : ∀ (t : TState) (sid : Nat),
    t.streams sid = none → sid < t.nextStreamId →
    ∀ o ∈ (trun t es).2, PubOut.sid o ≠ sid := by
  induction es with
  | nil =>
      intro t sid _ _ o ho
      simp [trun] at ho
  | cons e es ih =>
      intro t sid h1 h2 o ho
      have hstep := tstep_no_write_of_absent t e sid h1 h2
      have htrun : (trun t (e :: es)).2 = (tstep t e).2 ++ (trun (tstep t e).1 es).2 := rfl
      rw [htrun] at ho
      rcases List.mem_append.mp ho with ho1 | ho2
      · exact hstep.2 o ho1
      · exact ih (tstep t e).1 sid hstep.1.1 hstep.1.2 o ho2

/-- C4: evaluation of the embedded code at the failing input — a registered tunnel
whose single public request (stream 1) never gets a client reply, so the
30-second deadline fires with headers unsent (the entry still holds
`headersSent = false`). The stream is removed from the map, but the deadline
delivers no public write at all — in particular no 504 — because
`reply.code(504).send` runs on the reply that was hijacked when the request was
accepted, and Fastify swallows a `send` on a hijacked reply; the timeout callback
also contains no headers-sent check that could produce one. Late frames for the
stream afterwards write nothing either. -/
theorem c4_timeout_no_504 :
    (trun registeredTunnelInit [TEvent.pubReq]).1.streams 1 = some false ∧
    (tstep (trun registeredTunnelInit [TEvent.pubReq]).1 (TEvent.timeoutFire 1)).1.streams 1
      = none ∧
    (tstep (trun registeredTunnelInit [TEvent.pubReq]).1 (TEvent.timeoutFire 1)).2 = [] ∧
    (trun (tstep (trun registeredTunnelInit [TEvent.pubReq]).1 (TEvent.timeoutFire 1)).1
        [TEvent.respStart 1 200, TEvent.respData 1 true, TEvent.endRes 1]).2 = [] := by
  decide

/-- C5 counterexample: a server state with a registered tunnel (subdomain "abc",
object id 0) that has an in-flight stream 1 with headers unsent. The close handler
deletes the registry entry but emits nothing — no 502 reaches the public caller
and no response body is closed — and the tunnel object with its live stream is
left untouched (it stays reachable from the pending 30-second timer), refuting
the claim that every in-flight stream is failed on control close. -/
theorem c5_counterexample :
    (closeHandler (some ("abc".data))
        ⟨upd (fun _ => none) ("abc".data) (some 0),
         upd (fun _ => none) 0 (some ⟨2, upd (fun _ => none) 1 (some false)⟩)⟩).2 = [] ∧
    (closeHandler (some ("abc".data))
        ⟨upd (fun _ => none) ("abc".data) (some 0),
         upd (fun _ => none) 0 (some ⟨2, upd (fun _ => none) 1 (some false)⟩)⟩).1.heap
      = upd (fun _ => none) 0 (some ⟨2, upd (fun _ => none) 1 (some false)⟩) ∧
    (closeHandler (some ("abc".data))
        ⟨upd (fun _ => none) ("abc".data) (some 0),
         upd (fun _ => none) 0 (some ⟨2, upd (fun _ => none) 1 (some false)⟩)⟩).1.tunnels
      ("abc".data) = none := by
  refine ⟨rfl, rfl, ?_⟩
  simp [closeHandler, upd]

/-- C5 (amended): on control-channel close the server deletes the tunnel's registry
entry and nothing else — the close handler performs no public write, so in-flight
streams are not failed at close time: no 502 is emitted, no response body is
closed abruptly, and the tunnel object with its stream entries is left untouched
(still reachable from its pending 30-second timers). -/
theorem c5_close_teardown (assigned : Option Subdomain) (s : Srv) :
    (closeHandler assigned s).2 = [] ∧
    (closeHandler assigned s).1.heap = s.heap ∧
    (∀ sub, assigned = some sub → (closeHandler assigned s).1.tunnels sub = none) ∧
    (assigned = none → (closeHandler assigned s).1.tunnels = s.tunnels) := by
  refine ⟨?_, ?_, ?_, ?_⟩
  · cases assigned <;> rfl
  · cases assigned <;> rfl
  · intro sub h
    subst h
    simp [closeHandler, upd]
  · intro h
    subst h
    rfl

/-- C5 witness: closing a connection whose assigned subdomain is "abc" deletes that
registry entry. -/
theorem c5_witness :
    (closeHandler (some ("abc".data))
        ⟨upd (fun _ => none) ("abc".data) (some 0), fun _ => none⟩).1.tunnels ("abc".data)
      = none :=
  (c5_close_teardown (some ("abc".data))
    ⟨upd (fun _ => none) ("abc".data) (some 0), fun _ => none⟩).2.2.1 ("abc".data) rfl

lemma tstep_preserves_next (t : TState) (e : TEvent) (h : isPubReq e = false) :
    (tstep t e).1.nextStreamId = t.nextStreamId := by
  cases e with
  | pubReq => cases h
  | respStart sid st =>
      cases hs : t.streams sid with
      | none => simp only [tstep, hs]
      | some b => cases b <;> simp only [tstep, hs]
  | respData sid hc =>
      cases hs : t.streams sid with
      | none => simp only [tstep, hs]
      | some b => simp only [tstep, hs]
  | endRes sid =>
      cases hs : t.streams sid with
      | none => simp only [tstep, hs]
      | some b => simp only [tstep, hs]
  | timeoutFire sid =>
      cases hs : t.streams sid with
      | none => simp only [tstep, hs]
      | some b => simp only [tstep, hs]

lemma allocsOf_cons_not_pubReq (t : TState) (e : TEvent) (es : List TEvent)
    (h : isPubReq e = false) :
    allocsOf t (e :: es) = allocsOf (tstep t e).1 es := by
  cases e with
  | pubReq => cases h
  | respStart sid st => rfl
  | respData sid hc => rfl
  | endRes sid => rfl
  | timeoutFire sid => rfl

lemma allocsOf_eq (es : List TEvent) : ∀ t : TState,
    allocsOf t es = List.range' t.nextStreamId (es.countP isPubReq) := by
  induction es with
  | nil =>
      intro t
      rfl
  | cons e es ih =>
      intro t
      cases e with
      | pubReq =>
          have h1 : allocsOf t (TEvent.pubReq :: es)
              = t.nextStreamId :: allocsOf (tstep t TEvent.pubReq).1 es := rfl
          rw [h1, ih ((tstep t TEvent.pubReq).1)]
          have h2 : (tstep t TEvent.pubReq).1.nextStreamId = t.nextStreamId + 1 := rfl
          rw [h2]
          have h3 : (TEvent.pubReq :: es).countP isPubReq = es.countP isPubReq + 1 :=
            List.countP_cons_of_pos _ _ rfl
          rw [h3]
          rfl
      | respStart sid st =>
          rw [allocsOf_cons_not_pubReq t (TEvent.respStart sid st) es rfl, ih,
            tstep_preserves_next t (TEvent.respStart sid st) rfl,
            List.countP_cons_of_neg _ _ (by simp [isPubReq])]
      | respData sid hc =>
          rw [allocsOf_cons_not_pubReq t (TEvent.respData sid hc) es rfl, ih,
            tstep_preserves_next t (TEvent.respData sid hc) rfl,
            List.countP_cons_of_neg _ _ (by simp [isPubReq])]
      | endRes sid =>
          rw [allocsOf_cons_not_pubReq t (TEvent.endRes sid) es rfl, ih,
            tstep_preserves_next t (TEvent.endRes sid) rfl,
            List.countP_cons_of_neg _ _ (by simp [isPubReq])]
      | timeoutFire sid =>
          rw [allocsOf_cons_not_pubReq t (TEvent.timeoutFire sid) es rfl, ih,
            tstep_preserves_next t (TEvent.timeoutFire sid) rfl,
            List.countP_cons_of_neg _ _ (by simp [isPubReq])]

/-- C8: for a tunnel as created by REGISTER_TUNNEL (`nextStreamId: 1`), the stream
ids allocated to successive public requests during any event interleaving are
exactly `[1, 2, …, k]` where `k` is the number of public requests — strictly
increasing, contiguous and starting at 1, with `nextStreamId` incremented by one
per public request and by nothing else. -/
theorem c8_stream_monotonicity (es : List TEvent) :
    allocsOf registeredTunnelInit es = List.range' 1 (es.countP isPubReq) ∧
    (allocsOf registeredTunnelInit es).Pairwise (· < ·) ∧
    ∀ i (hi : i < (allocsOf registeredTunnelInit es).length),
      (allocsOf registeredTunnelInit es).get ⟨i, hi⟩ = i + 1 := by
  have h : allocsOf registeredTunnelInit es = List.range' 1 (es.countP isPubReq) :=
    allocsOf_eq es registeredTunnelInit
  refine ⟨h, ?_, ?_⟩
  · rw [h, List.pairwise_iff_getElem]
    intro i j hi hj hij
    rw [List.getElem_range', List.getElem_range']
    omega
  · intro i hi
    rw [List.get_eq_getElem, List.getElem_of_eq h, List.getElem_range']
    simp only [Fin.val_mk]
    omega

/-- C8 witness: after two public requests the second allocated stream id is 2. -/
theorem c8_witness :
    (allocsOf registeredTunnelInit [TEvent.pubReq, TEvent.pubReq]).get ⟨1, by decide⟩ = 2 :=
  (c8_stream_monotonicity [TEvent.pubReq, TEvent.pubReq]).2.2 1 (by decide)

lemma jsEndsWith_iff {s t : List Char} : jsEndsWith s t = true ↔ t <:+ s := by
  simp [jsEndsWith]

lemma extractSubdomain_self {base : List Char} (hbase : base ≠ []) :
    extractSubdomain base base = none := by
  have h1 : jsEndsWith base base = true := jsEndsWith_iff.mpr (List.suffix_refl base)
  have h2 : jsSliceDropEnd base base.length = [] := by
    unfold jsSliceDropEnd
    rw [if_neg (fun h0 => hbase (List.length_eq_zero.mp h0)), Nat.sub_self]
    exact List.take_zero _
  have h3 : jsEndsWith ([] : List Char) ['.'] = false := by decide
  simp [extractSubdomain, h1, h2, h3]

lemma extractSubdomain_decomp {base sub : List Char} (hbase : base ≠ []) :
    extractSubdomain (sub ++ '.' :: base) base
      = if isValidSubdomain sub then some sub else none := by
  have hb0 : base.length ≠ 0 := fun h0 => hbase (List.length_eq_zero.mp h0)
  have hassoc : sub ++ '.' :: base = (sub ++ ['.']) ++ base := by
    rw [List.append_assoc]
    rfl
  have h1 : jsEndsWith (sub ++ '.' :: base) base = true := by
    rw [jsEndsWith_iff]
    exact ⟨sub ++ ['.'], hassoc.symm⟩
  have h2 : jsSliceDropEnd (sub ++ '.' :: base) base.length = sub ++ ['.'] := by
    unfold jsSliceDropEnd
    rw [if_neg hb0, hassoc]
    refine List.take_left' ?_
    rw [List.length_append, List.length_append, List.length_cons]
    simp
  have h3 : jsEndsWith (sub ++ ['.']) ['.'] = true := by
    rw [jsEndsWith_iff]
    exact ⟨sub, rfl⟩
  have h4 : jsSliceDropEnd (sub ++ ['.']) 1 = sub := by
    unfold jsSliceDropEnd
    rw [if_neg one_ne_zero]
    refine List.take_left' ?_
    rw [List.length_append]
    simp
  by_cases hv : isValidSubdomain sub = true
  · simp [extractSubdomain, h1, h2, h3, h4, hv]
  · have hv2 : isValidSubdomain sub = false := by
      revert hv
      cases isValidSubdomain sub
      · intro _
        rfl
      · intro hv
        exact absurd rfl hv
    simp [extractSubdomain, h1, h2, h3, h4, hv2]

lemma extractSubdomain_some {host base sub : List Char} (hbase : base ≠ [])
    (h : extractSubdomain host base = some sub) : host = sub ++ '.' :: base := by
  have hb0 : base.length ≠ 0 := fun h0 => hbase (List.length_eq_zero.mp h0)
  simp only [extractSubdomain] at h
  split at h
  · cases h
  · rename_i hc1
    have hsuf1 : base <:+ host := by
      rw [← jsEndsWith_iff]
      revert hc1
      cases jsEndsWith host base
      · intro hc1
        exact absurd rfl hc1
      · intro _
        rfl
    obtain ⟨pre, hpre⟩ := hsuf1
    have hsuffix : jsSliceDropEnd host base.length = pre := by
      unfold jsSliceDropEnd
      rw [if_neg hb0, ← hpre]
      refine List.take_left' ?_
      rw [List.length_append]
      omega
    rw [hsuffix] at h
    split at h
    · cases h
    · rename_i hc2
      have hsuf2 : ['.'] <:+ pre := by
        rw [← jsEndsWith_iff]
        revert hc2
        cases jsEndsWith pre ['.']
        · intro hc2
          exact absurd rfl hc2
        · intro _
          rfl
      obtain ⟨pre2, hpre2⟩ := hsuf2
      have hsub2 : jsSliceDropEnd pre 1 = pre2 := by
        unfold jsSliceDropEnd
        rw [if_neg one_ne_zero, ← hpre2]
        refine List.take_left' ?_
        rw [List.length_append]
        simp
      rw [hsub2] at h
      split at h
      · cases h
      · injection h with hsub
        rw [← hsub, ← hpre, ← hpre2, List.append_assoc]
        rfl

/-- C7: the public handler lowercases the Host header (empty when absent) and
strips any `:port`. If the processed host equals the base domain, or does not end
with `.<base>`, or the label before `.<base>` fails `^[a-z0-9-]{3,63}$`, the
request is answered 404; if the label is valid but no tunnel is registered under
it, the request is answered 502 with body `{"error":"Tunnel not connected"}`. -/
theorem c7_host_routing (hostHeader : Option (List Char)) (base : List Char)
    (registered : Subdomain → Bool) (hbase : base ≠ []) :
    (stripPort (jsToLower (hostHeader.getD [])) = base →
      routePublic hostHeader base registered = RouteResult.notFound) ∧
    (jsEndsWith (stripPort (jsToLower (hostHeader.getD []))) ('.' :: base) = false →
      routePublic hostHeader base registered = RouteResult.notFound) ∧
    (∀ sub, stripPort (jsToLower (hostHeader.getD [])) = sub ++ '.' :: base →
      isValidSubdomain sub = false →
      routePublic hostHeader base registered = RouteResult.notFound) ∧
    (∀ sub, stripPort (jsToLower (hostHeader.getD [])) = sub ++ '.' :: base →
      isValidSubdomain sub = true → registered sub = false →
      routePublic hostHeader base registered = RouteResult.tunnelNotConnected ∧
      routeStatus RouteResult.tunnelNotConnected = some 502 ∧
      routeBody RouteResult.tunnelNotConnected = some tunnelNotConnectedBody) ∧
    routeStatus RouteResult.notFound = some 404 ∧
    routeBody RouteResult.notFound = some notFoundBody := by
  refine ⟨?_, ?_, ?_, ?_, rfl, rfl⟩
  · intro heq
    simp only [routePublic, heq, extractSubdomain_self hbase]
  · intro hne
    simp only [routePublic]
    cases hx : extractSubdomain (stripPort (jsToLower (hostHeader.getD []))) base with
    | none => rfl
    | some sub =>
        exfalso
        have hdec := extractSubdomain_some hbase hx
        rw [hdec] at hne
        have hsuf : ('.' :: base) <:+ (sub ++ '.' :: base) := ⟨sub, rfl⟩
        have ht := jsEndsWith_iff.mpr hsuf
        rw [hne] at ht
        exact Bool.false_ne_true ht
  · intro sub hdec hval
    simp only [routePublic, hdec, extractSubdomain_decomp hbase, hval]
    rfl
  · intro sub hdec hval hreg
    refine ⟨?_, rfl, rfl⟩
    simp only [routePublic, hdec, extractSubdomain_decomp hbase, hval]
    simp [hreg]

/-- C7 witness: a mixed-case host with a port routes to its subdomain; with no
tunnel registered the outcome is the 502 `Tunnel not connected`. -/
theorem c7_witness :
    routePublic (some ("App.localhost:443".data)) ("localhost".data) (fun _ => false)
      = RouteResult.tunnelNotConnected :=
  ((c7_host_routing (some ("App.localhost:443".data)) ("localhost".data) (fun _ => false)
      (by decide)).2.2.2.1 ("app".data) (by decide) (by decide) rfl).1
